import Mathlib

/-!
Verification development for the `retry` Go package.

The embedding models, from the source:
  * `backoff.go` — `addJitter`, `FixedBackoff.Next`, `LinearBackoff.Next`,
    `ExponentialBackoff.Next`.  Go's `time.Duration` is `int64`; its
    arithmetic wraps, modelled by `wrap64`.  Go's `float64` arithmetic
    (jitter and the exponential formula) is idealized as exact rational
    arithmetic; the `float64 → time.Duration` conversion truncates toward
    zero, modelled by `truncQ`.  The random draw `rand.Float64() ∈ [0,1)`
    is passed as an explicit parameter.
  * `retry.go` — the `retrier` configuration and the `Do` loop, as a
    fuel-indexed executor over an explicit cancellation-signal model.
    Discrete timeline: the pre-attempt poll of attempt `n` happens at
    stage `2*n`, the backoff wait after attempt `n` covers stage `2*n+1`;
    a signal triggered during a wait wins the `select` race.
  * the errors file — `UnretryableError`, `newUnretryableError`,
    `errors.Unwrap`, via the inductive `GoError`.
-/

namespace Retry

/-- Two's-complement wrap-around of Go `int64` arithmetic (`time.Duration`). -/
def wrap64 (x : Int) : Int := (x + 2 ^ 63) % 2 ^ 64 - 2 ^ 63

/-- Go's `float64 → int64` conversion: truncation toward zero. -/
def truncQ (x : ℚ) : Int := if 0 ≤ x then x.floor else -(-x).floor

/-- Models `addJitter(d, jitter)` from `backoff.go`: if `jitter <= 0 || jitter >= 1`
return `d` unchanged; otherwise `delta := (rand.Float64()*2 - 1) * jitter` and the
result is `time.Duration(float64(d) * (1 + delta))`.  `draw` is the value returned
by `rand.Float64()`, in `[0,1)`. -/
def addJitter (d : Int) (jitter draw : ℚ) : Int :=
  if jitter ≤ 0 ∨ 1 ≤ jitter then d
  else truncQ ((d : ℚ) * (1 + (draw * 2 - 1) * jitter))

/-- Models the `FixedBackoff` configuration struct from `backoff.go`. -/
structure FixedBackoff where
  Interval : Int
  Jitter : ℚ
deriving DecidableEq

/-- Models `FixedBackoff.Next`: `return addJitter(f.Interval, f.Jitter)`. -/
def FixedBackoff.Next (f : FixedBackoff) (attempt : Nat) (draw : ℚ) : Int :=
  addJitter f.Interval f.Jitter draw

/-- Models the `LinearBackoff` configuration struct from `backoff.go`. -/
structure LinearBackoff where
  Base : Int
  Step : Int
  Max : Int
  Jitter : ℚ
deriving DecidableEq

/-- Models `LinearBackoff.Next`: `d := l.Base + time.Duration(attempt)*l.Step;
if l.Max > 0 && d > l.Max { return l.Max }; return addJitter(d, l.Jitter)`.
Each `time.Duration` operation wraps at 64 bits. -/
def LinearBackoff.Next (l : LinearBackoff) (attempt : Nat) (draw : ℚ) : Int :=
  let d := wrap64 (l.Base + wrap64 ((attempt : Int) * l.Step))
  if 0 < l.Max ∧ l.Max < d then l.Max
  else addJitter d l.Jitter draw

/-- Models the `ExponentialBackoff` configuration struct from `backoff.go`. -/
structure ExponentialBackoff where
  Base : Int
  Factor : ℚ
  Max : Int
  Jitter : ℚ
deriving DecidableEq

/-- Models `ExponentialBackoff.Next`: `d := float64(e.Base) * math.Pow(e.Factor,
float64(attempt)); if e.Max > 0 && d > float64(e.Max) { return e.Max };
return addJitter(time.Duration(d), e.Jitter)`, with `float64` idealized as ℚ. -/
def ExponentialBackoff.Next (e : ExponentialBackoff) (attempt : Nat) (draw : ℚ) : Int :=
  let d : ℚ := (e.Base : ℚ) * e.Factor ^ attempt
  if 0 < e.Max ∧ (e.Max : ℚ) < d then e.Max
  else addJitter (truncQ d) e.Jitter draw

/-- Go error values as this package produces and inspects them: opaque domain
errors (`base`), the two context sentinel errors, the exported wrapper type
`*UnretryableError`, and the result of `fmt.Errorf("all attempts failed: %w", err)`
(`wrapfAll` when `err` is non-nil; `wrapfAllNil` for the `err == nil` case, in
which `%w` of nil produces a plain non-wrapping error). -/
inductive GoError where
  | base : Nat → GoError
  | canceled : GoError
  | deadlineExceeded : GoError
  | unretryable : GoError → GoError
  | wrapfAll : GoError → GoError
  | wrapfAllNil : GoError
deriving DecidableEq

/-- Models `errors.Unwrap` on the error shapes above: `(*UnretryableError).Unwrap`
returns the cause, the `fmt.Errorf` `%w` wrapper unwraps to its operand, and
everything else has no unwrap method. -/
def errorsUnwrap : GoError → Option GoError
  | .unretryable e => some e
  | .wrapfAll e => some e
  | _ => none

/-- Models `IsUnretryable` from the errors file: `errors.As(err, &e)` for target
type `*UnretryableError`, which tests the value and then walks the unwrap chain. -/
def isUnretryableAs : GoError → Bool
  | .unretryable _ => true
  | .wrapfAll e => isUnretryableAs e
  | _ => false

/-- Models `newUnretryableError`: nil in, nil out; otherwise wrap in
`*UnretryableError`. -/
def newUnretryableError : Option GoError → Option GoError
  | none => none
  | some e => some (.unretryable e)

/-- Models `fmt.Errorf("all attempts failed: %w", err)` for the exhaustion
return of `Do`: a wrapping error when `err` is non-nil, a plain error otherwise. -/
def mkExhausted : Option GoError → GoError
  | none => .wrapfAllNil
  | some e => .wrapfAll e

/-- The cancellation signal (`context.Context`) as `Do` observes it:
`cancelTime` is the discrete stage at which the signal becomes (and stays)
triggered, `errVal` is the value `ctx.Err()` returns once triggered. -/
structure Ctx where
  cancelTime : Option Nat
  errVal : GoError

/-- Models `ctx.Err()` observed at stage `t`: non-nil exactly when the signal
has triggered by `t`. -/
def Ctx.errAt (c : Ctx) (t : Nat) : Option GoError :=
  match c.cancelTime with
  | none => none
  | some t0 => if t0 ≤ t then some c.errVal else none

/-- Which terminal branch of `Do` produced the result (ghost instrumentation;
`§4.2` of the spec calls these the terminal states). -/
inductive Shape where
  | success : Shape
  | canceledShape : Shape
  | unretryableStop : Shape
  | exhausted : Shape
deriving DecidableEq

/-- Ghost instrumentation of one run of `Do`: the attempt indices passed to the
operation, the errors passed to the retryability predicate, and the attempt
indices passed to `backoff.Next` (one entry per entered wait). -/
structure RunStats where
  fCalls : List Nat
  predCalls : List GoError
  boCalls : List Nat
deriving DecidableEq

/-- Record one invocation of the operation. -/
def recordF (st : RunStats) (n : Nat) : RunStats := { st with fCalls := st.fCalls ++ [n] }

/-- Record one invocation of the retryability predicate. -/
def recordP (st : RunStats) (e : GoError) : RunStats := { st with predCalls := st.predCalls ++ [e] }

/-- Record one computed backoff delay / entered wait. -/
def recordB (st : RunStats) (n : Nat) : RunStats := { st with boCalls := st.boCalls ++ [n] }

/-- Models the `retrier` struct from `retry.go`.  The backoff strategy is kept
abstract (the loop only calls `Next`); `isRetryable` is `none` when the Go field
is nil. -/
structure Retrier where
  backoff : Nat → Int
  maxAttempts : Int
  isRetryable : Option (GoError → Bool)

/-- Models the loop of `retrier.Do` from `retry.go`, one fuel unit per loop
iteration (`none` = not yet terminal within `fuel`).  Mirrors the source line
by line: loop condition `r.maxAttempts == 0 || attempt < r.maxAttempts`; poll
`ctx.Err()`; invoke `f(attempt)`; `r.isRetryable != nil && !r.isRetryable(err)`
returns `newUnretryableError(err)`; then the `select` race between `ctx.Done()`
and `time.After(r.backoff.Next(attempt))`; after the loop,
`fmt.Errorf("all attempts failed: %w", err)`. -/
def doLoop (r : Retrier) (c : Ctx) (f : Nat → Option GoError) :
    Nat → Nat → Option GoError → RunStats → Option (Option GoError × Shape × RunStats)
  | 0, _, _, _ => none
  | fuel + 1, attempt, lastErr, st =>
    if r.maxAttempts = 0 ∨ (attempt : Int) < r.maxAttempts then
      match c.errAt (2 * attempt) with
      | some ce => some (some ce, .canceledShape, st)
      | none =>
        match f attempt with
        | none => some (none, .success, recordF st attempt)
        | some e =>
          match r.isRetryable with
          | some p =>
            if p e then
              match c.errAt (2 * attempt + 1) with
              | some ce => some (some ce, .canceledShape, recordB (recordP (recordF st attempt) e) attempt)
              | none => doLoop r c f fuel (attempt + 1) (some e) (recordB (recordP (recordF st attempt) e) attempt)
            else
              some (newUnretryableError (some e), .unretryableStop, recordP (recordF st attempt) e)
          | none =>
            match c.errAt (2 * attempt + 1) with
            | some ce => some (some ce, .canceledShape, recordB (recordF st attempt) attempt)
            | none => doLoop r c f fuel (attempt + 1) (some e) (recordB (recordF st attempt) attempt)
    else
      some (some (mkExhausted lastErr), .exhausted, st)

/-- Models one invocation of `retrier.Do`: start at attempt 0 with `var err error`
nil and empty instrumentation. -/
def Retrier.Do (r : Retrier) (c : Ctx) (f : Nat → Option GoError) (fuel : Nat) :
    Option (Option GoError × Shape × RunStats) :=
  doLoop r c f fuel 0 none ⟨[], [], []⟩

/-- The caller-side discriminator the spec's error-reporting contract (§7)
promises is possible: classify a failing result of `Do` by inspection only — a
direct type test for `*UnretryableError`, identity with the context sentinel
errors for cancellation, everything else is exhaustion.  No message strings are
consulted. -/
def classify : GoError → Shape
  | .unretryable _ => .unretryableStop
  | .canceled => .canceledShape
  | .deadlineExceeded => .canceledShape
  | _ => .exhausted

/-! Helper lemmas about the numeric embeddings. -/

theorem ratFloor_eq_intFloor (q : ℚ) : q.floor = ⌊q⌋ := by
  rw [Rat.floor_def', Rat.floor_def]

theorem truncQ_of_nonneg (x : ℚ) (h : 0 ≤ x) : truncQ x = ⌊x⌋ := by
  rw [truncQ, if_pos h, ratFloor_eq_intFloor]

theorem truncQ_intCast (k : Int) : truncQ ((k : Int) : ℚ) = k := by
  by_cases h : (0:ℚ) ≤ (k:ℚ)
  · rw [truncQ_of_nonneg _ h, Int.floor_intCast]
  · rw [truncQ, if_neg h, ratFloor_eq_intFloor, ← Int.cast_neg, Int.floor_intCast, neg_neg]

theorem wrap64_eq_of_inRange (x : Int) (h1 : -(2^63) ≤ x) (h2 : x < 2^63) : wrap64 x = x := by
  unfold wrap64
  omega

/-! Claim theorems for the backoff strategies. -/

/-- Claim C2 counterexample: with linear backoff base 5, step 0, max 3,
jitter 1/2, at attempt 0 the uncapped delay 5 exceeds max 3, yet `Next` returns
exactly 3 for the draw 9/10, while the jittered value of max (what the claim
says is returned) would be `addJitter 3 (1/2) (9/10) = 4`. -/
theorem c2_counterexample :
    LinearBackoff.Next ⟨5, 0, 3, mkRat 1 2⟩ 0 (mkRat 9 10) = 3 ∧
    addJitter 3 (mkRat 1 2) (mkRat 9 10) = 4 ∧ (3 : Int) ≠ 4 := by
  refine ⟨by decide, ?_, by decide⟩
  rw [addJitter, if_neg (by decide)]
  norm_num
  rw [truncQ_of_nonneg _ (by norm_num)]
  rw [show ((21:ℚ)/5) = ((21:Int) : ℚ) / ((5:ℕ):ℚ) by norm_num]
  rw [Rat.floor_intCast_div_natCast]
  decide

/-- Claim C2 amended: when the uncapped delay exceeds `max > 0`, linear and
exponential `Next` return exactly `max`, with no jitter applied at all (the cap
branch returns before `addJitter` is reached), for every random draw. -/
theorem c2_amended :
    (∀ (l : LinearBackoff) (n : Nat) (draw : ℚ),
      0 < l.Max → l.Max < wrap64 (l.Base + wrap64 ((n : Int) * l.Step)) →
      l.Next n draw = l.Max) ∧
    (∀ (e : ExponentialBackoff) (n : Nat) (draw : ℚ),
      0 < e.Max → (e.Max : ℚ) < (e.Base : ℚ) * e.Factor ^ n →
      e.Next n draw = e.Max) := by
  constructor
  · intro l n draw h1 h2
    simp only [LinearBackoff.Next]
    rw [if_pos ⟨h1, h2⟩]
  · intro e n draw h1 h2
    simp only [ExponentialBackoff.Next]
    rw [if_pos ⟨h1, h2⟩]

theorem c2_amended_witness :
    LinearBackoff.Next ⟨5, 0, 3, mkRat 1 2⟩ 0 (mkRat 9 10) = 3 ∧
    ExponentialBackoff.Next ⟨10, 2, 5, mkRat 1 5⟩ 0 (mkRat 9 10) = 5 :=
  ⟨c2_amended.1 ⟨5, 0, 3, mkRat 1 2⟩ 0 (mkRat 9 10) (by decide) (by decide),
   c2_amended.2 ⟨10, 2, 5, mkRat 1 5⟩ 0 (mkRat 9 10) (by decide)
     (by rw [pow_zero, mul_one]; exact Int.cast_lt.mpr (by decide))⟩

/-- Claim C5 counterexample: exponential backoff with base 10, factor 2, max 5
yields 5 at attempt 0, not "exactly base" 10; and linear backoff with base and
step `2^62` at attempt 1 overflows `int64` and returns `-(2^63)`, not
`min (base + 1*step) max = 5`. -/
theorem c5_counterexample :
    ExponentialBackoff.Next ⟨10, 2, 5, 0⟩ 0 0 = 5 ∧ (5 : Int) ≠ 10 ∧
    LinearBackoff.Next ⟨2^62, 2^62, 5, 0⟩ 1 0 = -(2^63) ∧
    (-(2^63) : Int) ≠ min (2^62 + 1 * 2^62) 5 := by
  refine ⟨?_, by decide, by decide, by decide⟩
  simp only [ExponentialBackoff.Next, pow_zero, mul_one]
  rw [if_pos ⟨by decide, by exact_mod_cast (show (5:Int) < 10 by decide)⟩]

/-- Claim C5 amended, jitter aside (jitter fraction outside `(0,1)`): fixed
backoff returns `interval`; linear returns `min (base + n*step) max` when
`max > 0` provided the `int64` computation does not overflow; exponential with
an integer factor `m` returns `min (base * m^n) max` when `max > 0`; and
exponential at attempt 0 returns exactly `base` provided the cap does not bind
(`max ≤ 0` or `base ≤ max`). -/
theorem c5_amended :
    (∀ (f : FixedBackoff) (n : Nat) (draw : ℚ),
      f.Jitter ≤ 0 ∨ 1 ≤ f.Jitter → f.Next n draw = f.Interval) ∧
    (∀ (l : LinearBackoff) (n : Nat) (draw : ℚ),
      l.Jitter ≤ 0 ∨ 1 ≤ l.Jitter → 0 < l.Max →
      -(2^63) ≤ (n : Int) * l.Step → (n : Int) * l.Step < 2^63 →
      -(2^63) ≤ l.Base + (n : Int) * l.Step → l.Base + (n : Int) * l.Step < 2^63 →
      l.Next n draw = min (l.Base + (n : Int) * l.Step) l.Max) ∧
    (∀ (e : ExponentialBackoff) (n m : Nat) (draw : ℚ),
      e.Jitter ≤ 0 ∨ 1 ≤ e.Jitter → 0 < e.Max → e.Factor = (m : ℚ) →
      e.Next n draw = min (e.Base * (m : Int) ^ n) e.Max) ∧
    (∀ (e : ExponentialBackoff) (draw : ℚ),
      e.Jitter ≤ 0 ∨ 1 ≤ e.Jitter → (e.Max ≤ 0 ∨ e.Base ≤ e.Max) →
      e.Next 0 draw = e.Base) := by
  refine ⟨?_, ?_, ?_, ?_⟩
  · intro f n draw hj
    simp only [FixedBackoff.Next, addJitter]
    rw [if_pos hj]
  · intro l n draw hj hmax h1 h2 h3 h4
    simp only [LinearBackoff.Next, wrap64_eq_of_inRange _ h1 h2, wrap64_eq_of_inRange _ h3 h4]
    by_cases hcap : l.Max < l.Base + (n : Int) * l.Step
    · rw [if_pos ⟨hmax, hcap⟩, min_eq_right (le_of_lt hcap)]
    · rw [if_neg (fun hc => hcap hc.2), addJitter, if_pos hj,
        min_eq_left (not_lt.mp hcap)]
  · intro e n m draw hj hmax hfac
    have hd : (e.Base : ℚ) * e.Factor ^ n = ((e.Base * (m : Int) ^ n : Int) : ℚ) := by
      rw [hfac]
      push_cast
      ring
    simp only [ExponentialBackoff.Next, hd]
    by_cases hcap : (e.Max : ℚ) < ((e.Base * (m : Int) ^ n : Int) : ℚ)
    · rw [if_pos ⟨hmax, hcap⟩, min_eq_right (le_of_lt (by exact_mod_cast hcap))]
    · rw [if_neg (fun hc => hcap hc.2), truncQ_intCast, addJitter, if_pos hj,
        min_eq_left (by exact_mod_cast not_lt.mp hcap)]
  · intro e draw hj hbase
    simp only [ExponentialBackoff.Next, pow_zero, mul_one]
    have hnot : ¬ (0 < e.Max ∧ (e.Max : ℚ) < (e.Base : ℚ)) := by
      rcases hbase with h | h
      · exact fun hc => absurd hc.1 (not_lt.mpr h)
      · exact fun hc => absurd hc.2 (not_lt.mpr (by exact_mod_cast h))
    rw [if_neg hnot, truncQ_intCast, addJitter, if_pos hj]

theorem c5_amended_witness :
    FixedBackoff.Next ⟨7, 0⟩ 5 0 = 7 ∧
    LinearBackoff.Next ⟨2, 3, 100, 0⟩ 4 0 = min (2 + (4 : Int) * 3) 100 ∧
    ExponentialBackoff.Next ⟨3, 2, 1000, 0⟩ 4 0 = min (3 * (2 : Int) ^ 4) 1000 ∧
    ExponentialBackoff.Next ⟨9, 2, 1000, 0⟩ 0 0 = 9 :=
  ⟨c5_amended.1 ⟨7, 0⟩ 5 0 (Or.inl (by decide)),
   c5_amended.2.1 ⟨2, 3, 100, 0⟩ 4 0 (Or.inl (by decide)) (by decide)
     (by decide) (by decide) (by decide) (by decide),
   c5_amended.2.2.1 ⟨3, 2, 1000, 0⟩ 4 2 0 (Or.inl (by decide)) (by decide)
     (by norm_num),
   c5_amended.2.2.2 ⟨9, 2, 1000, 0⟩ 0 (Or.inl (by decide)) (Or.inr (by decide))⟩

/-- Claim C9 counterexample: `addJitter` with duration 10, jitter 1/4 and
random draw 0 (so `delta = -1/4`) returns `trunc(10 * 3/4) = trunc 7.5 = 7`,
which lies strictly below the claimed lower bound `d*(1-j) = 7.5`. -/
theorem c9_counterexample :
    addJitter 10 (mkRat 1 4) 0 = 7 ∧ ((7 : Int) : ℚ) < ((10 : Int) : ℚ) * (1 - mkRat 1 4) := by
  constructor
  · rw [addJitter, if_neg (by decide)]
    norm_num
    rw [truncQ_of_nonneg _ (by norm_num)]
    rw [show ((15:ℚ)/2) = ((15:Int) : ℚ) / ((2:ℕ):ℚ) by norm_num]
    rw [Rat.floor_intCast_div_natCast]
    decide
  · have h : (mkRat 1 4 : ℚ) = 1/4 := by
      rw [Rat.mkRat_eq_div]
      norm_num
    rw [h]
    norm_num

/-- Claim C9 amended: jitter with `j ≤ 0` or `j ≥ 1` returns exactly `d`; for
`j ∈ (0,1)`, a draw in `[0,1)` and a non-negative duration `d`, the result lies
in the interval `(d*(1-j) - 1, d*(1+j)]` — the unit of slack below `d*(1-j)`
comes from truncating the scaled float to an integer duration. -/
theorem c9_amended (d : Int) (j draw : ℚ) :
    (j ≤ 0 ∨ 1 ≤ j → addJitter d j draw = d) ∧
    (0 < j → j < 1 → 0 ≤ draw → draw < 1 → 0 ≤ d →
      (d : ℚ) * (1 - j) - 1 < (addJitter d j draw : ℚ) ∧
      (addJitter d j draw : ℚ) ≤ (d : ℚ) * (1 + j)) := by
  constructor
  · intro h
    rw [addJitter, if_pos h]
  · intro hj0 hj1 hdr0 hdr1 hd
    have hnot : ¬ (j ≤ 0 ∨ 1 ≤ j) := by
      push_neg
      exact ⟨hj0, hj1⟩
    rw [addJitter, if_neg hnot]
    have hdq : (0:ℚ) ≤ (d:ℚ) := by exact_mod_cast hd
    have hterm : (0:ℚ) ≤ draw * j := mul_nonneg hdr0 hj0.le
    have hterm2 : (0:ℚ) ≤ (1 - draw) * j := mul_nonneg (by linarith) hj0.le
    have hlo : (d:ℚ) * (1 - j) ≤ (d:ℚ) * (1 + (draw * 2 - 1) * j) := by
      nlinarith [mul_nonneg hdq hterm]
    have hhi : (d:ℚ) * (1 + (draw * 2 - 1) * j) ≤ (d:ℚ) * (1 + j) := by
      nlinarith [mul_nonneg hdq hterm2]
    have hx0 : (0:ℚ) ≤ (d:ℚ) * (1 + (draw * 2 - 1) * j) := by
      nlinarith [mul_nonneg hdq hterm, mul_nonneg hdq (show (0:ℚ) ≤ 1 - j by linarith)]
    rw [truncQ_of_nonneg _ hx0]
    have hfl := Int.floor_le ((d:ℚ) * (1 + (draw * 2 - 1) * j))
    have hfg := Int.sub_one_lt_floor ((d:ℚ) * (1 + (draw * 2 - 1) * j))
    constructor
    · linarith
    · linarith

theorem c9_amended_witness :
    addJitter 10 2 (mkRat 1 2) = 10 ∧
    ((10 : Int) : ℚ) * (1 - mkRat 1 4) - 1 < (addJitter 10 (mkRat 1 4) 0 : ℚ) ∧
    (addJitter 10 (mkRat 1 4) 0 : ℚ) ≤ ((10 : Int) : ℚ) * (1 + mkRat 1 4) :=
  ⟨(c9_amended 10 2 (mkRat 1 2)).1 (Or.inr (by decide)),
   (c9_amended 10 (mkRat 1 4) 0).2 (by decide) (by decide) (by decide) (by decide) (by decide)⟩

/-! Helper lemmas about runs of the `Do` loop. -/

theorem doLoop_exit (r : Retrier) (c : Ctx) (f : Nat → Option GoError) (k : Nat)
    (hstop : ¬ (r.maxAttempts = 0 ∨ (k : Int) < r.maxAttempts)) :
    ∀ (fuel : Nat) (le : Option GoError) (st : RunStats), 0 < fuel →
      doLoop r c f fuel k le st = some (some (mkExhausted le), .exhausted, st) := by
  intro fuel le st hfuel
  obtain ⟨fl, rfl⟩ : ∃ fl, fuel = fl + 1 := ⟨fuel - 1, by omega⟩
  simp only [doLoop]
  rw [if_neg hstop]

theorem doLoop_alwaysFail (r : Retrier) (c : Ctx) (f : Nat → Option GoError)
    (p : GoError → Bool) (e : Nat → GoError) (m : Nat)
    (hm : r.maxAttempts = (m : Int)) (hm0 : 0 < m) (hc : c.cancelTime = none)
    (hf : ∀ n, f n = some (e n)) (hp : r.isRetryable = some p)
    (hpe : ∀ n, p (e n) = true) :
    ∀ (fuel k : Nat) (le : Option GoError) (st : RunStats),
      k < m → m - k < fuel →
      doLoop r c f fuel k le st =
        some (some (.wrapfAll (e (m - 1))), .exhausted,
          ⟨st.fCalls ++ List.range' k (m - k),
           st.predCalls ++ (List.range' k (m - k)).map e,
           st.boCalls ++ List.range' k (m - k)⟩) := by
  have hnone : ∀ t, c.errAt t = none := by
    intro t
    simp [Ctx.errAt, hc]
  intro fuel
  induction fuel with
  | zero =>
    intro k le st hk hfl
    omega
  | succ n ih =>
    intro k le st hk hfl
    have hcond : r.maxAttempts = 0 ∨ (k : Int) < r.maxAttempts := by
      right
      rw [hm]
      exact_mod_cast hk
    simp only [doLoop, if_pos hcond, hnone, hf, hp, hpe, if_true]
    by_cases hlast : k + 1 < m
    · rw [ih (k + 1) (some (e k)) _ hlast (by omega)]
      have hr : List.range' k (m - k) = k :: List.range' (k + 1) (m - (k + 1)) := by
        rw [show m - k = (m - (k + 1)) + 1 by omega]
        rfl
      simp [recordF, recordP, recordB, hr]
    · have hkm : k + 1 = m := by omega
      have hstop : ¬ (r.maxAttempts = 0 ∨ ((k + 1 : Nat) : Int) < r.maxAttempts) := by
        rw [hm]
        push_neg
        constructor
        · exact_mod_cast (by omega : m ≠ 0)
        · exact_mod_cast (by omega : m ≤ k + 1)
      rw [doLoop_exit r c f (k + 1) hstop n (some (e k)) _ (by omega)]
      have hr : List.range' k (m - k) = [k] := by
        rw [show m - k = 1 by omega]
        rfl
      have hek : e k = e (m - 1) := by
        rw [show m - 1 = k by omega]
      simp [recordF, recordP, recordB, hr, mkExhausted, hek]

theorem Ctx.errAt_some (c : Ctx) (t : Nat) (x : GoError) (h : c.errAt t = some x) :
    x = c.errVal := by
  unfold Ctx.errAt at h
  split at h
  · simp at h
  · split at h
    · exact (Option.some.inj h).symm
    · simp at h

/-! Claim theorems for the retry executor. -/

/-- Claim C1 counterexample: `maxAttempts = 1`, an always-failing retryable
operation and a never-triggered signal.  `Do` does return the exhaustion error
wrapping the only failure, but the instrumentation shows the backoff delay for
attempt 0 — the final permitted attempt — was computed and its wait entered
(`boCalls = [0]`, not `[]`) before the exhaustion error was returned. -/
theorem c1_counterexample :
    Retrier.Do ⟨fun _ => 7, 1, some (fun _ => true)⟩ ⟨none, .canceled⟩
        (fun _ => some (.base 0)) 2 =
      some (some (.wrapfAll (.base 0)), .exhausted, ⟨[0], [.base 0], [0]⟩) ∧
    ([0] : List Nat) ≠ [] :=
  ⟨by decide, by decide⟩

/-- Claim C1 amended: with `maxAttempts = m > 0`, an operation failing
retryably on every attempt and a never-triggered signal, `Do` computes the
backoff delay and enters the Waiting step after every failed attempt —
including the final one (`boCalls = [0..m-1]`, of length `m`, not `m-1`) — and
only after the last wait completes does it return the exhaustion error wrapping
the last failure. -/
theorem c1_amended (r : Retrier) (c : Ctx) (f : Nat → Option GoError)
    (p : GoError → Bool) (e : Nat → GoError) (m : Nat)
    (hm : r.maxAttempts = (m : Int)) (hm0 : 0 < m) (hc : c.cancelTime = none)
    (hf : ∀ n, f n = some (e n)) (hp : r.isRetryable = some p)
    (hpe : ∀ n, p (e n) = true) (fuel : Nat) (hfuel : m < fuel) :
    Retrier.Do r c f fuel =
      some (some (.wrapfAll (e (m - 1))), .exhausted,
        ⟨List.range' 0 m, (List.range' 0 m).map e, List.range' 0 m⟩) ∧
    (List.range' 0 m).length = m := by
  constructor
  · have h := doLoop_alwaysFail r c f p e m hm hm0 hc hf hp hpe fuel 0 none
      ⟨[], [], []⟩ hm0 (by omega)
    simpa using h
  · simp

theorem c1_amended_witness :
    Retrier.Do ⟨fun _ => 7, 2, some (fun _ => true)⟩ ⟨none, .canceled⟩
        (fun n => some (.base n)) 3 =
      some (some (.wrapfAll (.base 1)), .exhausted,
        ⟨[0, 1], [.base 0, .base 1], [0, 1]⟩) ∧
    (List.range' 0 2).length = 2 :=
  c1_amended ⟨fun _ => 7, 2, some (fun _ => true)⟩ ⟨none, .canceled⟩
    (fun n => some (.base n)) (fun _ => true) (fun n => .base n) 2
    rfl (by decide) rfl (fun n => rfl) rfl (fun n => rfl) 3 (by decide)

/-- Claim C3: every failing terminal outcome of `Do` is correctly classified by
the string-free discriminator `classify` (top-level `*UnretryableError` type
test, identity with the context sentinel error, everything else exhaustion),
provided the signal's error value obeys the `context.Context` contract of being
`Canceled` or `DeadlineExceeded`.  The three failure shapes are therefore
mutually distinguishable by inspection of the returned error value alone. -/
theorem c3_theorem (r : Retrier) (c : Ctx) (f : Nat → Option GoError)
    (hsent : c.errVal = .canceled ∨ c.errVal = .deadlineExceeded) :
    ∀ (fuel k : Nat) (le : Option GoError) (st : RunStats) (err : GoError)
      (sh : Shape) (stOut : RunStats),
      doLoop r c f fuel k le st = some (some err, sh, stOut) →
      classify err = sh := by
  have hcls : classify c.errVal = .canceledShape := by
    rcases hsent with h | h <;> rw [h] <;> rfl
  intro fuel
  induction fuel with
  | zero =>
    intro k le st err sh stOut hrun
    simp [doLoop] at hrun
  | succ n ih =>
    intro k le st err sh stOut hrun
    simp only [doLoop] at hrun
    split at hrun
    · split at hrun
      · rename_i ce hpoll
        simp only [Option.some.injEq, Prod.mk.injEq] at hrun
        obtain ⟨h1, h2, h3⟩ := hrun
        rw [← h1, ← h2, Ctx.errAt_some c _ _ hpoll]
        exact hcls
      · split at hrun
        · simp at hrun
        · rename_i ek hfk
          split at hrun
          · rename_i pr hpred
            split at hrun
            · split at hrun
              · rename_i ce hsel
                simp only [Option.some.injEq, Prod.mk.injEq] at hrun
                obtain ⟨h1, h2, h3⟩ := hrun
                rw [← h1, ← h2, Ctx.errAt_some c _ _ hsel]
                exact hcls
              · exact ih _ _ _ _ _ _ hrun
            · simp only [newUnretryableError, Option.some.injEq, Prod.mk.injEq] at hrun
              obtain ⟨h1, h2, h3⟩ := hrun
              rw [← h1, ← h2]
              rfl
          · split at hrun
            · rename_i ce hsel
              simp only [Option.some.injEq, Prod.mk.injEq] at hrun
              obtain ⟨h1, h2, h3⟩ := hrun
              rw [← h1, ← h2, Ctx.errAt_some c _ _ hsel]
              exact hcls
            · exact ih _ _ _ _ _ _ hrun
    · simp only [Option.some.injEq, Prod.mk.injEq] at hrun
      obtain ⟨h1, h2, h3⟩ := hrun
      rw [← h1, ← h2]
      cases le <;> rfl

theorem c3_theorem_witness :
    classify (.wrapfAll (.base 0)) = .exhausted :=
  c3_theorem ⟨fun _ => 7, 1, some (fun _ => true)⟩ ⟨none, .canceled⟩
    (fun _ => some (.base 0)) (Or.inl rfl) 2 0 none ⟨[], [], []⟩
    (.wrapfAll (.base 0)) .exhausted ⟨[0], [.base 0], [0]⟩ (by decide)

/-- Claim C4: with `maxAttempts = 3`, an operation failing retryably on every
attempt, and a never-triggered signal, `Do` invokes the operation exactly three
times with attempt indices 0, 1, 2 and returns the exhaustion error wrapping
the third attempt's failure, whose original cause is reachable by unwrapping. -/
theorem c4_theorem (r : Retrier) (c : Ctx) (f : Nat → Option GoError)
    (p : GoError → Bool) (e : Nat → GoError)
    (hm : r.maxAttempts = 3) (hc : c.cancelTime = none)
    (hf : ∀ n, f n = some (e n)) (hp : r.isRetryable = some p)
    (hpe : ∀ n, p (e n) = true) (fuel : Nat) (hfuel : 3 < fuel) :
    Retrier.Do r c f fuel =
      some (some (.wrapfAll (e 2)), .exhausted,
        ⟨[0, 1, 2], [e 0, e 1, e 2], [0, 1, 2]⟩) ∧
    errorsUnwrap (.wrapfAll (e 2)) = some (e 2) := by
  constructor
  · have h := doLoop_alwaysFail r c f p e 3 (by exact_mod_cast hm) (by omega)
      hc hf hp hpe fuel 0 none ⟨[], [], []⟩ (by omega) (by omega)
    have hr : List.range' 0 (3 - 0) = [0, 1, 2] := rfl
    simpa [hr] using h
  · rfl

theorem c4_theorem_witness :
    Retrier.Do ⟨fun _ => 7, 3, some (fun _ => true)⟩ ⟨none, .canceled⟩
        (fun n => some (.base n)) 4 =
      some (some (.wrapfAll (.base 2)), .exhausted,
        ⟨[0, 1, 2], [.base 0, .base 1, .base 2], [0, 1, 2]⟩) ∧
    errorsUnwrap (.wrapfAll (.base 2)) = some (.base 2) :=
  c4_theorem ⟨fun _ => 7, 3, some (fun _ => true)⟩ ⟨none, .canceled⟩
    (fun n => some (.base n)) (fun _ => true) (fun n => .base n)
    rfl rfl (fun n => rfl) rfl (fun n => rfl) 4 (by decide)

/-- Claim C6: if the signal is untriggered at entry, `maxAttempts` is
non-negative, and the operation's first failure is deemed non-retryable by the
predicate, `Do` invokes the operation exactly once, enters no wait
(`boCalls = []`), and returns the `*UnretryableError` wrapper whose unwrap is
the original failure. -/
theorem c6_theorem (r : Retrier) (c : Ctx) (f : Nat → Option GoError)
    (p : GoError → Bool) (e : GoError)
    (hm : 0 ≤ r.maxAttempts) (hc : c.errAt 0 = none)
    (hf : f 0 = some e) (hp : r.isRetryable = some p) (hpe : p e = false)
    (fuel : Nat) (hfuel : 0 < fuel) :
    Retrier.Do r c f fuel =
      some (some (.unretryable e), .unretryableStop, ⟨[0], [e], []⟩) ∧
    errorsUnwrap (.unretryable e) = some e := by
  obtain ⟨fl, rfl⟩ : ∃ fl, fuel = fl + 1 := ⟨fuel - 1, by omega⟩
  refine ⟨?_, rfl⟩
  have hcond : r.maxAttempts = 0 ∨ ((0 : Nat) : Int) < r.maxAttempts := by
    rcases lt_or_eq_of_le hm with h | h
    · right
      exact_mod_cast h
    · left
      omega
  have hpoll : c.errAt (2 * 0) = none := by
    rw [show (2 * 0 : Nat) = 0 from rfl]
    exact hc
  simp only [Retrier.Do, doLoop, if_pos hcond, hpoll, hf, hp, hpe]
  simp [recordF, recordP, newUnretryableError]

theorem c6_theorem_witness :
    Retrier.Do ⟨fun _ => 7, 3, some (fun _ => false)⟩ ⟨none, .canceled⟩
        (fun _ => some (.base 5)) 1 =
      some (some (.unretryable (.base 5)), .unretryableStop, ⟨[0], [.base 5], []⟩) ∧
    errorsUnwrap (.unretryable (.base 5)) = some (.base 5) :=
  c6_theorem ⟨fun _ => 7, 3, some (fun _ => false)⟩ ⟨none, .canceled⟩
    (fun _ => some (.base 5)) (fun _ => false) (.base 5)
    (by decide) rfl rfl rfl rfl 1 (by decide)

/-- Claim C7 counterexample: with the configuration `maxAttempts = -1` and a
signal already triggered before the call, `Do` does not return the signal's own
error — the loop body (and with it the cancellation check) never runs, and the
exhaustion-shaped `all attempts failed` error wrapping a nil cause is returned
instead. -/
theorem c7_counterexample :
    Retrier.Do ⟨fun _ => 7, -1, some (fun _ => true)⟩ ⟨some 0, .canceled⟩
        (fun _ => some (.base 0)) 1 =
      some (some .wrapfAllNil, .exhausted, ⟨[], [], []⟩) ∧
    GoError.wrapfAllNil ≠ GoError.canceled :=
  ⟨by decide, by decide⟩

/-- Claim C7 amended: for every configuration with non-negative `maxAttempts`
and every operation, if the signal is already triggered before `Do` is called
(`cancelTime = 0`), the operation is never invoked (`fCalls = []`) and `Do`
returns the signal's own error immediately. -/
theorem c7_amended (r : Retrier) (c : Ctx) (f : Nat → Option GoError)
    (hm : 0 ≤ r.maxAttempts) (hc : c.cancelTime = some 0)
    (fuel : Nat) (hfuel : 0 < fuel) :
    Retrier.Do r c f fuel = some (some c.errVal, .canceledShape, ⟨[], [], []⟩) := by
  obtain ⟨fl, rfl⟩ : ∃ fl, fuel = fl + 1 := ⟨fuel - 1, by omega⟩
  have hcond : r.maxAttempts = 0 ∨ ((0 : Nat) : Int) < r.maxAttempts := by
    rcases lt_or_eq_of_le hm with h | h
    · right
      exact_mod_cast h
    · left
      omega
  have hpoll : c.errAt (2 * 0) = some c.errVal := by
    simp [Ctx.errAt, hc]
  simp only [Retrier.Do, doLoop, if_pos hcond, hpoll]

theorem c7_amended_witness :
    Retrier.Do ⟨fun _ => 7, 3, some (fun _ => true)⟩ ⟨some 0, .deadlineExceeded⟩
        (fun _ => some (.base 0)) 1 =
      some (some .deadlineExceeded, .canceledShape, ⟨[], [], []⟩) :=
  c7_amended ⟨fun _ => 7, 3, some (fun _ => true)⟩ ⟨some 0, .deadlineExceeded⟩
    (fun _ => some (.base 0)) (by decide) rfl 1 (by decide)

/-- Claim C8: in unbounded mode (`maxAttempts = 0`) no terminal outcome of the
loop is the exhaustion shape; and if the signal triggers during the wait after
attempt 0 while the first attempt failed retryably, `Do` returns the signal's
error with the operation invoked exactly once (`fCalls = [0]`). -/
theorem c8_theorem (r : Retrier) (c : Ctx) (f : Nat → Option GoError)
    (p : GoError → Bool) (e : GoError) (fuel : Nat) (hm : r.maxAttempts = 0) :
    (∀ (fl k : Nat) (le : Option GoError) (st : RunStats)
        (out : Option GoError × Shape × RunStats),
      doLoop r c f fl k le st = some out → out.2.1 ≠ .exhausted) ∧
    (c.cancelTime = some 1 → f 0 = some e → r.isRetryable = some p → p e = true →
      1 < fuel →
      Retrier.Do r c f fuel = some (some c.errVal, .canceledShape, ⟨[0], [e], [0]⟩)) := by
  constructor
  · intro fl
    induction fl with
    | zero =>
      intro k le st out hrun
      simp [doLoop] at hrun
    | succ n ih =>
      intro k le st out hrun
      simp only [doLoop] at hrun
      split at hrun
      · split at hrun
        · obtain rfl := Option.some.inj hrun
          simp
        · split at hrun
          · obtain rfl := Option.some.inj hrun
            simp
          · split at hrun
            · split at hrun
              · split at hrun
                · obtain rfl := Option.some.inj hrun
                  simp
                · exact ih _ _ _ _ hrun
              · obtain rfl := Option.some.inj hrun
                simp [newUnretryableError]
            · split at hrun
              · obtain rfl := Option.some.inj hrun
                simp
              · exact ih _ _ _ _ hrun
      · rename_i hstop
        exact absurd (Or.inl hm) hstop
  · intro hc hf hp hpe hfuel
    obtain ⟨fl, rfl⟩ : ∃ fl, fuel = fl + 2 := ⟨fuel - 2, by omega⟩
    have hpoll : c.errAt (2 * 0) = none := by
      simp [Ctx.errAt, hc]
    have hsel : c.errAt (2 * 0 + 1) = some c.errVal := by
      simp [Ctx.errAt, hc]
    simp only [Retrier.Do, doLoop, if_pos (Or.inl hm), hpoll, hf, hp, hpe, hsel]
    simp [recordF, recordP, recordB]

theorem c8_theorem_witness :
    Shape.canceledShape ≠ Shape.exhausted ∧
    Retrier.Do ⟨fun _ => 7, 0, some (fun _ => true)⟩ ⟨some 1, .canceled⟩
        (fun _ => some (.base 0)) 2 =
      some (some .canceled, .canceledShape, ⟨[0], [.base 0], [0]⟩) :=
  ⟨(c8_theorem ⟨fun _ => 7, 0, some (fun _ => true)⟩ ⟨some 1, .canceled⟩
      (fun _ => some (.base 0)) (fun _ => true) (.base 0) 2 rfl).1
      2 0 none ⟨[], [], []⟩ (some .canceled, .canceledShape, ⟨[0], [.base 0], [0]⟩)
      (by decide),
   (c8_theorem ⟨fun _ => 7, 0, some (fun _ => true)⟩ ⟨some 1, .canceled⟩
      (fun _ => some (.base 0)) (fun _ => true) (.base 0) 2 rfl).2
      rfl rfl rfl rfl (by decide)⟩

/-- Claim C10: with a negative `maxAttempts` the loop condition fails at once:
`Do` returns the exhaustion-shaped `all attempts failed` error wrapping the nil
`err` (so unwrapping yields nothing), and the operation, predicate and backoff
are never invoked (all instrumentation lists empty). -/
theorem c10_theorem (r : Retrier) (c : Ctx) (f : Nat → Option GoError)
    (hm : r.maxAttempts < 0) (fuel : Nat) (hfuel : 0 < fuel) :
    Retrier.Do r c f fuel = some (some .wrapfAllNil, .exhausted, ⟨[], [], []⟩) ∧
    errorsUnwrap .wrapfAllNil = none := by
  obtain ⟨fl, rfl⟩ : ∃ fl, fuel = fl + 1 := ⟨fuel - 1, by omega⟩
  refine ⟨?_, rfl⟩
  have hstop : ¬ (r.maxAttempts = 0 ∨ ((0 : Nat) : Int) < r.maxAttempts) := by
    push_neg
    refine ⟨by omega, ?_⟩
    simp only [Nat.cast_zero]
    omega
  simp only [Retrier.Do, doLoop, if_neg hstop, mkExhausted]

theorem c10_theorem_witness :
    Retrier.Do ⟨fun _ => 7, -1, some (fun _ => true)⟩ ⟨none, .canceled⟩
        (fun _ => some (.base 0)) 1 =
      some (some .wrapfAllNil, .exhausted, ⟨[], [], []⟩) ∧
    errorsUnwrap .wrapfAllNil = none :=
  c10_theorem ⟨fun _ => 7, -1, some (fun _ => true)⟩ ⟨none, .canceled⟩
    (fun _ => some (.base 0)) (by decide) 1 (by decide)

end Retry
